import Mathlib

/-!
Verification of the POOPy D8 flow-accumulation engine
(`poopy/d8_accumulator.py` and the Cython kernels it calls).

The Python class `D8Accumulator` wraps a 2D array of ESRI D8 direction
codes and derives, eagerly at construction time, a receiver array, the
list of baselevel nodes, and a breadth-first topological order; flow
accumulation, channel-segment extraction and downstream-profile
extraction are built on these.  Grids are modelled as `List (List Int)`
in row-major order, numpy float arrays as `List Rat` (exact rational
arithmetic stands in for IEEE floats), and Python exceptions as
`Except PyError`.

The Cython module `cfuncs.pyx` is not part of the sources available
here (only its caller `d8_accumulator.py` is), so the kernels
`d8_to_receivers`, `build_ordered_list_iterative`, `accumulate_flow`,
`get_channel_segments` and `get_profile` are modelled from the spec,
as marked on each definition in the `cf` namespace.
-/

deriving instance DecidableEq for Except

/-- Number of columns of a row-major 2D array modelled as a list of rows
(numpy `arr.shape[1]`). -/
def colsOf (a : List (List Int)) : Nat := (a.getD 0 []).length

/-- Total number of cells of a 2D array (numpy `arr.size = rows*cols`). -/
def npSize (a : List (List Int)) : Nat := a.length * colsOf a

namespace cf

/-- Modelled from the spec: the 9-entry ESRI D8 offset table of section 4.2
(`0` sink, `1` E, `2` SE, `4` S, `8` SW, `16` W, `32` NW, `64` N, `128` NE),
as `(row offset, column offset)` pairs.  A code outside the nine valid
values is treated as a sink (the lenient policy the spec allows). -/
def d8Offset (code : Int) : Int × Int :=
  if code = 1 then (0, 1)
  else if code = 2 then (1, 1)
  else if code = 4 then (1, 0)
  else if code = 8 then (1, -1)
  else if code = 16 then (0, -1)
  else if code = 32 then (-1, -1)
  else if code = 64 then (-1, 0)
  else if code = 128 then (-1, 1)
  else (0, 0)

/-- Modelled from the spec: the missing Cython kernel
`cfuncs.d8_to_receivers` (section 4.2, Receiver Resolver).  For each node
`i` at row `i / cols` and column `i % cols`, look up the offset of its
direction code; if the neighbour falls outside the grid, or the code is a
sink, the receiver is `i` itself, otherwise it is the neighbour's
row-major index. -/
def d8_to_receivers (a : List (List Int)) : List Nat :=
  let rows := a.length
  let cols := colsOf a
  (List.range (rows * cols)).map (fun i =>
    let code := (a.getD (i / cols) []).getD (i % cols) 0
    let off := d8Offset code
    let r2 : Int := ((i / cols : Nat) : Int) + off.1
    let c2 : Int := ((i % cols : Nat) : Int) + off.2
    if 0 ≤ r2 ∧ r2 < (rows : Int) ∧ 0 ≤ c2 ∧ c2 < (cols : Int)
    then (r2 * (cols : Int) + c2).toNat
    else i)

/-- Modelled from the spec: the Donor Index contract of section 4.4 — the
direct donors of node `n` are the nodes `d` with `receivers[d] == n` and
`d != n`, enumerated in ascending id order (the determinism requirement of
section 4.3).  This is the slice `donors[delta[n]:delta[n+1]]` of the flat
donor array that the missing Cython kernels `count_donors`,
`ndonors_to_delta` and `make_donor_array` build. -/
def donorsOfNode (receivers : List Nat) (n : Nat) : List Nat :=
  (List.range receivers.length).filter
    (fun d => receivers.getD d d == n && !(d == n))

/-- Breadth-first traversal by frontier levels: emit the current frontier,
then recurse on the concatenation of its members' donor lists.  The fuel
argument bounds the number of levels.  This is the level-by-level reading
of the FIFO-queue algorithm of section 4.3: a queue initialised with the
frontier and fed the donors of each dequeued node dequeues exactly the
concatenation of the successive frontiers. -/
def bfsAux (receivers : List Nat) : Nat → List Nat → List Nat
  | 0, _ => []
  | fuel + 1, frontier =>
      frontier ++ bfsAux receivers fuel (frontier.flatMap (donorsOfNode receivers))

/-- Modelled from the spec: the missing Cython kernel
`cfuncs.build_ordered_list_iterative` (section 4.3, Topological Orderer).
A FIFO queue is initialised with the baselevel nodes; each dequeued node
is appended to the order and its donors are enqueued.  Any node drains to
its baselevel outlet in fewer than `N` receiver steps, so `N` frontier
levels suffice. -/
def build_ordered_list_iterative (receivers baselevel : List Nat) : List Nat :=
  bfsAux receivers receivers.length baselevel

/-- One step of flow accumulation for node `n`: add the accumulated value
of `n` to that of its receiver, unless `n` is its own receiver. -/
def accumStep (receivers : List Nat) (acc : List Rat) (n : Nat) : List Rat :=
  let r := receivers.getD n n
  if r = n then acc
  else acc.set r (acc.getD r 0 + acc.getD n 0)

/-- Modelled from the spec: the missing Cython kernel
`cfuncs.accumulate_flow` (section 4.5, Accumulator).  Starting from a copy
of the weights, walk the topological order in reverse (headwaters first,
outlets last — the iteration direction section 4.5 mandates) and fold each
node's accumulated value into its receiver. -/
def accumulate_flow (receivers order : List Nat) (weights : List Rat) : List Rat :=
  (order.reverse).foldl (accumStep receivers) weights

/-- Walk the receiver chain downstream from a node, collecting the visited
nodes, stopping at a self-receiver.  The fuel bounds the walk on inputs
whose receiver graph has a cycle. -/
def walkDown (receivers : List Nat) : Nat → Nat → List Nat
  | 0, n => [n]
  | fuel + 1, n =>
      let r := receivers.getD n n
      if r = n then [n] else n :: walkDown receivers fuel r

/-- Modelled from the spec: the missing Cython kernel `cfuncs.get_profile`
(section 4.6, Downstream profile) restricted to the node sequence it
returns: follow receivers from the start node to a baselevel node.  The
accompanying distance array (Euclidean step lengths, irrational for
diagonal steps) is not modelled; no claim inspects it. -/
def get_profile (start : Nat) (receivers : List Nat) : List Nat :=
  walkDown receivers receivers.length start

/-- Modelled from the spec: the depth-first channel walk of section 4.6.
From a node, the walk continues through donors whose field value strictly
exceeds the threshold; a unique qualifying donor extends the current
segment, none ends it, and several (a confluence) end it and start a new
segment at each qualifying donor. -/
def segmentWalk (receivers : List Nat) (field : List Rat) (t : Rat) :
    Nat → Nat → List Nat → List (List Nat)
  | 0, n, seg => [(n :: seg).reverse]
  | fuel + 1, n, seg =>
      match (donorsOfNode receivers n).filter (fun d => decide (t < field.getD d 0)) with
      | [] => [(n :: seg).reverse]
      | [d] => segmentWalk receivers field t fuel d (n :: seg)
      | qs => (n :: seg).reverse :: qs.flatMap (fun d => segmentWalk receivers field t fuel d [])

/-- Modelled from the spec: the missing Cython kernel
`cfuncs.get_channel_segments` (section 4.6, Channel segments): from each
starting node, extract threshold-gated segments by the depth-first walk. -/
def get_channel_segments (starting_nodes receivers : List Nat)
    (field : List Rat) (t : Rat) : List (List Nat) :=
  starting_nodes.flatMap (fun s => segmentWalk receivers field t receivers.length s [])

end cf

/-- The baselevel-node computation of `D8Accumulator.__init__`
(`np.where(receivers == np.arange(len(receivers)))[0]`): the indices `i`
with `receivers[i] == i`, in ascending order. -/
def baselevelNodes (receivers : List Nat) : List Nat :=
  (List.range receivers.length).filter (fun i => receivers.getD i i == i)

/-- A GDAL geotransform, as the six values `GetGeoTransform` returns:
upper-left x, pixel width, row rotation, upper-left y, column rotation,
pixel height (negative for north-up rasters).  Coordinates are modelled
as exact rationals. -/
structure GeoTransform where
  ulx : Rat
  dx : Rat
  rx : Rat
  uly : Rat
  ry : Rat
  dy : Rat
deriving DecidableEq

/-- The Python exceptions the modelled methods can raise: `ValueError`
with its message, and the `AttributeError` raised by calling
`GetGeoTransform()` on the absent (`None`) GDAL dataset. -/
inductive PyError
  | valueError (msg : String)
  | attributeError
deriving DecidableEq

/-- A numpy array as passed to `accumulate`: its shape together with its
flattened (row-major) data.  `arr.flatten()` returns `data`. -/
structure NDArray where
  shape : List Nat
  data : List Rat
deriving DecidableEq

/-- The state of a `D8Accumulator` instance: the direction-code array, the
optional GDAL dataset (reduced to its geotransform, the only part the
class reads), and the three derived arrays `__init__` computes. -/
structure D8Accumulator where
  arr : List (List Int)
  ds : Option GeoTransform
  receivers : List Nat
  baselevel_nodes : List Nat
  order : List Nat
deriving DecidableEq

/-- The shared tail of `__init__`, `from_array` and the `arr` setter:
store the array and dataset and derive `receivers`, `baselevel_nodes` and
`order` from the array (source lines 117-125, 319-327, 345-353). -/
def D8Accumulator.build (a : List (List Int)) (g : Option GeoTransform) : D8Accumulator :=
  let receivers := cf.d8_to_receivers a
  { arr := a
    ds := g
    receivers := receivers
    baselevel_nodes := baselevelNodes receivers
    order := cf.build_ordered_list_iterative receivers (baselevelNodes receivers) }

/-- `D8Accumulator.__init__(filename)`, with the file reading done: the
grid and geotransform the GDAL dataset supplied stand in for the file. -/
def D8Accumulator.init (a : List (List Int)) (g : GeoTransform) : D8Accumulator :=
  D8Accumulator.build a (some g)

/-- `D8Accumulator.from_array(arr)`: construct from a plain numpy array;
no GDAL dataset exists (`_ds = None`).  (The 2D check of the source is
structural here: the model's arrays are lists of rows.) -/
def D8Accumulator.from_array (a : List (List Int)) : D8Accumulator :=
  D8Accumulator.build a none

/-- The `arr` property setter: replace the array, drop the dataset
(`self._ds = None`) and recompute the three derived arrays before
returning (source lines 314-327). -/
def D8Accumulator.setArr (_s : D8Accumulator) (a : List (List Int)) : D8Accumulator :=
  D8Accumulator.build a none

/-- `D8Accumulator.accumulate(weights)` (source lines 127-153).  With no
weights, every node gets weight 1; an explicit weights array is rejected
unless its shape equals the D8 array's 2D shape, and is flattened
otherwise.  The result is returned flat; the source's final reshape to
the grid shape is presentation only. -/
def D8Accumulator.accumulate (s : D8Accumulator) (weights : Option NDArray) :
    Except PyError (List Rat) :=
  match weights with
  | none =>
      .ok (cf.accumulate_flow s.receivers s.order (List.replicate s.receivers.length (1 : Rat)))
  | some w =>
      if w.shape = [s.arr.length, colsOf s.arr] then
        .ok (cf.accumulate_flow s.receivers s.order w.data)
      else
        .error (.valueError "Weights must be have same shape as D8 array")

/-- The starting-node selection of `get_channel_segments` (source lines
177-182): nodes whose field value strictly exceeds the threshold
(`field > threshold`) and which are baselevel, in ascending order. -/
def D8Accumulator.channelStartingNodes (s : D8Accumulator) (field : List Rat)
    (threshold : Rat) : List Nat :=
  (List.range s.receivers.length).filter
    (fun i => decide (threshold < field.getD i 0) && (s.receivers.getD i i == i))

/-- `D8Accumulator.get_channel_segments(field, threshold)` (source lines
155-207), as the segments of node ids it extracts.  When a dataset
exists the source additionally converts the id segments to coordinate
polylines; that conversion is out of scope and does not change which
nodes appear. -/
def D8Accumulator.get_channel_segments (s : D8Accumulator) (field : List Rat)
    (threshold : Rat) : List (List Nat) :=
  cf.get_channel_segments (s.channelStartingNodes field threshold) s.receivers field threshold

/-- `D8Accumulator.get_profile(start_node)` (source lines 209-244),
restricted to the node sequence.  The bounds check of line 230 runs
first; only then is the geotransform read (line 233), which on an
array-constructed accumulator dereferences `None` and raises
`AttributeError`. -/
def D8Accumulator.get_profile (s : D8Accumulator) (start_node : Int) :
    Except PyError (List Nat) :=
  if start_node < 0 ∨ (npSize s.arr : Int) ≤ start_node then
    .error (.valueError "start_node must be a valid node index")
  else
    match s.ds with
    | none => .error .attributeError
    | some _ => .ok (cf.get_profile start_node.toNat s.receivers)

/-- `D8Accumulator.node_to_coord(node)` (source lines 246-261): the bounds
check of line 249 (note: `node > ncols*nrows`, not `>=`) runs before the
geotransform is read on line 253. -/
def D8Accumulator.node_to_coord (s : D8Accumulator) (node : Int) :
    Except PyError (Rat × Rat) :=
  let nrows := s.arr.length
  let ncols := colsOf s.arr
  if (ncols * nrows : Int) < node ∨ node < 0 then
    .error (.valueError "Node is out of bounds")
  else
    match s.ds with
    | none => .error .attributeError
    | some g =>
      let x_ind : Int := node % (ncols : Int)
      let y_ind : Int := node / (ncols : Int)
      .ok (g.ulx + g.dx * (x_ind : Rat) + g.dx / 2, g.uly + g.dy * (y_ind : Rat) + g.dy / 2)

/-- Truncation toward zero of a rational, the behaviour of Python's
`int(...)` cast on the exact quotient (source line 268 comments on it). -/
def truncInt (q : Rat) : Int := if 0 ≤ q then ⌊q⌋ else ⌈q⌉

/-- `D8Accumulator.coord_to_node(x, y)` (source lines 263-273): the
geotransform is read first (line 266); the bounds check of line 271 only
tests the final linear index `out`, not the row and column indices. -/
def D8Accumulator.coord_to_node (s : D8Accumulator) (x y : Rat) :
    Except PyError Int :=
  let nrows := s.arr.length
  let ncols := colsOf s.arr
  match s.ds with
  | none => .error .attributeError
  | some g =>
    let x_ind := truncInt ((x - g.ulx) / g.dx)
    let y_ind := truncInt ((y - g.uly) / g.dy)
    let out := y_ind * (ncols : Int) + x_ind
    if (ncols * nrows : Int) < out ∨ out < 0 then
      .error (.valueError "Coordinate is out of bounds")
    else .ok out

/-- Node `n` is a baselevel node of the receiver array: its receiver is
itself. -/
def IsBase (receivers : List Nat) (n : Nat) : Prop := receivers.getD n n = n

instance (receivers : List Nat) (n : Nat) : Decidable (IsBase receivers n) :=
  Nat.decEq (receivers.getD n n) n

/-- Iterate the receiver map `k` times from node `n`. -/
def iterRecv (receivers : List Nat) : Nat → Nat → Nat
  | 0, n => n
  | k + 1, n => iterRecv receivers k (receivers.getD n n)

/-- Node `n` lies at breadth-first depth exactly `k`: `k` receiver steps
reach a baselevel node and no fewer do. -/
def DepthIs (receivers : List Nat) (k n : Nat) : Prop :=
  n < receivers.length ∧ IsBase receivers (iterRecv receivers k n) ∧
    ∀ j < k, ¬ IsBase receivers (iterRecv receivers j n)

/-- Every node of the receiver array drains to a baselevel node within a
number of receiver steps smaller than the node count (equivalently, the
receiver graph has no directed cycle other than the baselevel
self-loops). -/
def DrainsAll (receivers : List Nat) : Prop :=
  ∀ n < receivers.length, ∃ k < receivers.length, IsBase receivers (iterRecv receivers k n)

instance (receivers : List Nat) : Decidable (DrainsAll receivers) := by
  unfold DrainsAll; infer_instance

/-- The `k`-th breadth-first frontier: the baselevel nodes, then the
concatenated donor lists of the previous frontier. -/
def frontierK (receivers : List Nat) : Nat → List Nat
  | 0 => baselevelNodes receivers
  | k + 1 => (frontierK receivers k).flatMap (cf.donorsOfNode receivers)

/-- The sum of an accumulated array over the baselevel nodes. -/
def baseSum (receivers : List Nat) (acc : List Rat) : Rat :=
  ((baselevelNodes receivers).map (fun i => acc.getD i 0)).sum

/-- The sum of an accumulated array over the non-baselevel members of a
pending list of nodes (the bookkeeping quantity of the conservation
proof). -/
def pendSum (receivers : List Nat) (acc : List Rat) (pending : List Nat) : Rat :=
  ((pending.filter (fun n => !(receivers.getD n n == n))).map (fun n => acc.getD n 0)).sum

/-- A 3x4 grid with a two-cycle: the interior cells at nodes 5 and 6
point at each other (codes 1 = east and 16 = west), every other cell is a
sink.  Nodes 5 and 6 drain to no baselevel node. -/
def cycArr : List (List Int) := [[0, 0, 0, 0], [0, 1, 16, 0], [0, 0, 0, 0]]

/-- A simple north-up unit geotransform: origin `(0,0)`, pixel size 1. -/
def gt0 : GeoTransform := ⟨0, 1, 0, 0, 0, -1⟩

/-! ### Basic lemmas about indexing, filters and sums -/

/-- Reading a mapped range at an in-range index yields the function value,
whatever the default. -/
theorem getD_map_range {f : Nat → Nat} {n i : Nat} (h : i < n) (d : Nat) :
    ((List.range n).map f).getD i d = f i := by
  simp [List.getD_eq_getElem?_getD, List.getElem?_map, List.getElem?_range h]

/-- The receiver array has one entry per grid cell. -/
theorem d8_to_receivers_length (a : List (List Int)) :
    (cf.d8_to_receivers a).length = npSize a := by
  simp [cf.d8_to_receivers, npSize]

/-- Every receiver is a valid node id. -/
theorem d8_to_receivers_lt (a : List (List Int)) (i : Nat)
    (h : i < a.length * colsOf a) :
    (cf.d8_to_receivers a).getD i i < a.length * colsOf a := by
  simp only [cf.d8_to_receivers]
  rw [getD_map_range h]
  split
  · rename_i hin
    obtain ⟨h1, h2, h3, h4⟩ := hin
    set rows := a.length with hrows
    set cols := colsOf a with hcols
    set r2 : Int := ((i / cols : Nat) : Int) + (cf.d8Offset ((a.getD (i / cols) []).getD (i % cols) 0)).1 with hr2
    set c2 : Int := ((i % cols : Nat) : Int) + (cf.d8Offset ((a.getD (i / cols) []).getD (i % cols) 0)).2 with hc2
    have hrn : ((r2.toNat : Nat) : Int) = r2 := Int.toNat_of_nonneg h1
    have hcn : ((c2.toNat : Nat) : Int) = c2 := Int.toNat_of_nonneg h3
    have hval : (r2 * (cols : Int) + c2).toNat = r2.toNat * cols + c2.toNat := by
      rw [← hrn, ← hcn]
      norm_cast
    rw [hval]
    have hrlt : r2.toNat < rows := by omega
    have hclt : c2.toNat < cols := by omega
    calc r2.toNat * cols + c2.toNat < r2.toNat * cols + cols := by omega
      _ = (r2.toNat + 1) * cols := by ring
      _ ≤ rows * cols := Nat.mul_le_mul_right cols (by omega)
  · exact h

/-- Membership in a donor list. -/
theorem mem_donorsOfNode {r : List Nat} {n d : Nat} :
    d ∈ cf.donorsOfNode r n ↔ d < r.length ∧ r.getD d d = n ∧ d ≠ n := by
  simp [cf.donorsOfNode, List.mem_filter, List.mem_range, and_assoc]

/-- Membership in the baselevel-node list. -/
theorem mem_baselevelNodes {r : List Nat} {i : Nat} :
    i ∈ baselevelNodes r ↔ i < r.length ∧ r.getD i i = i := by
  simp [baselevelNodes, List.mem_filter, List.mem_range]

/-- Donor lists have no duplicates. -/
theorem nodup_donorsOfNode (r : List Nat) (n : Nat) :
    (cf.donorsOfNode r n).Nodup :=
  List.Nodup.filter _ (List.nodup_range _)

/-- The baselevel-node list has no duplicates. -/
theorem nodup_baselevelNodes (r : List Nat) : (baselevelNodes r).Nodup :=
  List.Nodup.filter _ (List.nodup_range _)

/-- The baselevel-node list is strictly ascending. -/
theorem sorted_baselevelNodes (r : List Nat) :
    (baselevelNodes r).Sorted (· < ·) :=
  List.Pairwise.filter _ (List.pairwise_lt_range _)

/-- Updating one position of a list changes a sum of values read off it by
the change at that position (the list of positions must not repeat). -/
theorem sum_map_update (L : List Nat) (hL : L.Nodup) {r₀ : Nat} (hr : r₀ ∈ L)
    (f g : Nat → Rat) (hfg : ∀ m ∈ L, m ≠ r₀ → g m = f m) :
    (L.map g).sum = (L.map f).sum + (g r₀ - f r₀) := by
  have hperm : L.Perm (r₀ :: L.erase r₀) := List.perm_cons_erase hr
  have hg : (L.map g).sum = g r₀ + ((L.erase r₀).map g).sum := by
    rw [(hperm.map g).sum_eq]; simp
  have hf : (L.map f).sum = f r₀ + ((L.erase r₀).map f).sum := by
    rw [(hperm.map f).sum_eq]; simp
  have hcong : (L.erase r₀).map g = (L.erase r₀).map f := by
    apply List.map_congr_left
    intro m hm
    have hm' := (hL.mem_erase_iff).mp hm
    exact hfg m hm'.2 hm'.1
  rw [hg, hf, hcong]; ring

/-- Reading an updated list at the updated (in-range) position. -/
theorem getD_set_self (l : List Rat) (i : Nat) (v : Rat) (h : i < l.length) :
    (l.set i v).getD i 0 = v := by
  simp [List.getD_eq_getElem?_getD, List.getElem?_set_self h]

/-- Reading an updated list away from the updated position. -/
theorem getD_set_ne (l : List Rat) {i j : Nat} (v : Rat) (h : i ≠ j) :
    (l.set i v).getD j 0 = l.getD j 0 := by
  simp [List.getD_eq_getElem?_getD, List.getElem?_set_ne h]

/-- Reading a list at all positions in order reproduces the list. -/
theorem map_getD_range (w : List Rat) :
    (List.range w.length).map (fun i => w.getD i 0) = w := by
  apply List.ext_getElem
  · simp
  · intro i h1 h2
    simp [List.getD_eq_getElem?_getD, List.getElem?_eq_getElem h2]

/-! ### The breadth-first order: membership, no duplicates, positions -/

/-- A node is in the next frontier exactly when it is in range, not
baselevel, and its receiver is in the current frontier. -/
theorem mem_frontier_step {r fr : List Nat} {n : Nat} :
    n ∈ fr.flatMap (cf.donorsOfNode r) ↔
      n < r.length ∧ r.getD n n ≠ n ∧ r.getD n n ∈ fr := by
  rw [List.mem_flatMap]
  constructor
  · rintro ⟨m, hm, hd⟩
    rcases mem_donorsOfNode.mp hd with ⟨h1, h2, h3⟩
    refine ⟨h1, ?_, ?_⟩
    · rw [h2]; exact fun hc => h3 hc.symm
    · rw [h2]; exact hm
  · rintro ⟨h1, h2, h3⟩
    exact ⟨r.getD n n, h3, mem_donorsOfNode.mpr ⟨h1, rfl, Ne.symm h2⟩⟩

/-- The `k`-th frontier consists exactly of the nodes at depth `k` (for a
receiver array whose entries stay in range). -/
theorem mem_frontierK {r : List Nat}
    (hb : ∀ i < r.length, r.getD i i < r.length) (k n : Nat) :
    n ∈ frontierK r k ↔ DepthIs r k n := by
  induction k generalizing n with
  | zero =>
    rw [frontierK, mem_baselevelNodes]
    unfold DepthIs
    constructor
    · rintro ⟨h1, h2⟩
      exact ⟨h1, h2, by omega⟩
    · rintro ⟨h1, h2, _⟩
      exact ⟨h1, h2⟩
  | succ k ih =>
    rw [frontierK, mem_frontier_step]
    unfold DepthIs
    constructor
    · rintro ⟨h1, h2, h3⟩
      rcases (ih _).mp h3 with ⟨g1, g2, g3⟩
      refine ⟨h1, ?_, ?_⟩
      · simpa [iterRecv] using g2
      · intro j hj
        cases j with
        | zero => simpa [iterRecv, IsBase] using h2
        | succ j =>
          intro hbase
          exact g3 j (by omega) (by simpa [iterRecv] using hbase)
    · rintro ⟨h1, h2, h3⟩
      have hne : r.getD n n ≠ n := by
        have h0 := h3 0 (by omega)
        simpa [iterRecv, IsBase] using h0
      refine ⟨h1, hne, (ih _).mpr ?_⟩
      refine ⟨hb n h1, ?_, ?_⟩
      · simpa [iterRecv] using h2
      · intro j hj hbase
        exact h3 (j + 1) (by omega) (by simpa [iterRecv] using hbase)

/-- A node has at most one depth. -/
theorem depthIs_unique {r : List Nat} {k k' n : Nat}
    (h : DepthIs r k n) (h' : DepthIs r k' n) : k = k' := by
  unfold DepthIs at h h'
  by_contra hne
  rcases Nat.lt_or_ge k k' with hlt | hge
  · exact h'.2.2 k hlt h.2.1
  · exact h.2.2 k' (by omega) h'.2.1

/-- Frontiers have no duplicates: donor lists are duplicate-free and,
since every node has a single receiver, pairwise disjoint. -/
theorem nodup_frontierK (r : List Nat) (k : Nat) : (frontierK r k).Nodup := by
  induction k with
  | zero => exact nodup_baselevelNodes r
  | succ k ih =>
    rw [frontierK, List.nodup_flatMap]
    refine ⟨fun m _ => nodup_donorsOfNode r m, ?_⟩
    refine List.Pairwise.imp ?_ ih
    intro a b hab x hxa hxb
    rcases mem_donorsOfNode.mp hxa with ⟨_, h2, _⟩
    rcases mem_donorsOfNode.mp hxb with ⟨_, h2', _⟩
    exact hab (by rw [← h2, h2'])

/-- The nodes the breadth-first traversal emits, started at the `k`-th
frontier with the given fuel, are those of the next `fuel` frontiers. -/
theorem mem_bfsAux {r : List Nat} :
    ∀ fuel k n, n ∈ cf.bfsAux r fuel (frontierK r k) ↔
      ∃ j < fuel, n ∈ frontierK r (k + j) := by
  intro fuel
  induction fuel with
  | zero => intro k n; simp [cf.bfsAux]
  | succ fuel ih =>
    intro k n
    rw [cf.bfsAux, List.mem_append,
      show (frontierK r k).flatMap (cf.donorsOfNode r) = frontierK r (k + 1) from rfl,
      ih (k + 1)]
    constructor
    · rintro (h | ⟨j, hj, hmem⟩)
      · exact ⟨0, by omega, by simpa using h⟩
      · exact ⟨j + 1, by omega, by rw [show k + (j + 1) = k + 1 + j by omega]; exact hmem⟩
    · rintro ⟨j, hj, hmem⟩
      cases j with
      | zero => exact Or.inl (by simpa using hmem)
      | succ j =>
        exact Or.inr ⟨j, by omega, by rw [show k + 1 + j = k + (j + 1) by omega]; exact hmem⟩

/-- The breadth-first traversal emits no node twice: frontiers are
duplicate-free and distinct frontiers are disjoint by depth uniqueness. -/
theorem nodup_bfsAux {r : List Nat}
    (hb : ∀ i < r.length, r.getD i i < r.length) :
    ∀ fuel k, (cf.bfsAux r fuel (frontierK r k)).Nodup := by
  intro fuel
  induction fuel with
  | zero => intro k; simp [cf.bfsAux]
  | succ fuel ih =>
    intro k
    rw [cf.bfsAux,
      show (frontierK r k).flatMap (cf.donorsOfNode r) = frontierK r (k + 1) from rfl]
    refine List.Nodup.append (nodup_frontierK r k) (ih (k + 1)) ?_
    intro x hx hx'
    rcases (mem_bfsAux fuel (k + 1) x).mp hx' with ⟨j, hj, hmem⟩
    have d1 := (mem_frontierK hb k x).mp hx
    have d2 := (mem_frontierK hb (k + 1 + j) x).mp hmem
    have := depthIs_unique d1 d2
    omega

/-- Wherever the breadth-first traversal is split around a non-baselevel
node, that node's receiver was emitted earlier — unless the node belongs
to the very first frontier of the call. -/
theorem bfsAux_split {r : List Nat} :
    ∀ fuel k l₁ n l₂, cf.bfsAux r fuel (frontierK r k) = l₁ ++ n :: l₂ →
      r.getD n n ≠ n → (r.getD n n ∈ l₁ ∨ n ∈ frontierK r k) := by
  intro fuel
  induction fuel with
  | zero =>
    intro k l₁ n l₂ heq _
    exfalso
    have h := congrArg List.length heq
    simp [cf.bfsAux] at h
    omega
  | succ fuel ih =>
    intro k l₁ n l₂ heq hne
    rw [cf.bfsAux,
      show (frontierK r k).flatMap (cf.donorsOfNode r) = frontierK r (k + 1) from rfl] at heq
    rcases List.append_eq_append_iff.mp heq with ⟨u, hu1, hu2⟩ | ⟨v, hv1, hv2⟩
    · rcases ih (k + 1) u n l₂ hu2 hne with h | h
      · exact Or.inl (by rw [hu1]; exact List.mem_append_right _ h)
      · have hrecv : r.getD n n ∈ frontierK r k := by
          rw [frontierK] at h
          exact (mem_frontier_step.mp h).2.2
        exact Or.inl (by rw [hu1]; exact List.mem_append_left _ hrecv)
    · cases v with
      | nil =>
        simp only [List.nil_append] at hv2
        rcases ih (k + 1) [] n l₂ (by simpa using hv2.symm) hne with h | h
        · simp at h
        · have hrecv : r.getD n n ∈ frontierK r k := by
            rw [frontierK] at h
            exact (mem_frontier_step.mp h).2.2
          rw [List.append_nil] at hv1
          exact Or.inl (by rw [← hv1]; exact hrecv)
      | cons m v =>
        have hnm : n = m := by
          have := hv2
          simp only [List.cons_append] at this
          exact (List.cons_eq_cons.mp this).1
        subst hnm
        exact Or.inr (by rw [hv1]; exact List.mem_append_right _ (List.mem_cons_self _ _))

/-- The order `__init__` builds has no duplicate nodes. -/
theorem build_order_nodup {r : List Nat}
    (hb : ∀ i < r.length, r.getD i i < r.length) :
    (cf.build_ordered_list_iterative r (baselevelNodes r)).Nodup := by
  rw [cf.build_ordered_list_iterative,
    show baselevelNodes r = frontierK r 0 from rfl]
  exact nodup_bfsAux hb r.length 0

/-- Membership in the order is having a breadth-first depth below the node
count. -/
theorem build_order_mem {r : List Nat}
    (hb : ∀ i < r.length, r.getD i i < r.length) {n : Nat} :
    n ∈ cf.build_ordered_list_iterative r (baselevelNodes r) ↔
      ∃ j < r.length, DepthIs r j n := by
  rw [cf.build_ordered_list_iterative,
    show baselevelNodes r = frontierK r 0 from rfl,
    mem_bfsAux r.length 0 n]
  constructor
  · rintro ⟨j, hj, hm⟩
    exact ⟨j, hj, (mem_frontierK hb j n).mp (by simpa using hm)⟩
  · rintro ⟨j, hj, hd⟩
    exact ⟨j, hj, by simpa using (mem_frontierK hb j n).mpr hd⟩

/-- If every node drains to a baselevel node, the order is a permutation
of all node ids. -/
theorem build_order_perm {r : List Nat}
    (hb : ∀ i < r.length, r.getD i i < r.length)
    (hd : DrainsAll r) :
    (cf.build_ordered_list_iterative r (baselevelNodes r)).Perm (List.range r.length) := by
  apply List.Subperm.antisymm
  · apply List.subperm_of_subset (build_order_nodup hb)
    intro n hn
    rcases (build_order_mem hb).mp hn with ⟨j, _, hdep⟩
    unfold DepthIs at hdep
    simpa [List.mem_range] using hdep.1
  · apply List.subperm_of_subset (List.nodup_range _)
    intro n hn
    rw [List.mem_range] at hn
    rcases hd n hn with ⟨k, hk, hbase⟩
    have hex : ∃ j, IsBase r (iterRecv r j n) := ⟨k, hbase⟩
    have hfind : Nat.find hex < r.length := lt_of_le_of_lt (Nat.find_min' hex hbase) hk
    apply (build_order_mem hb).mpr
    refine ⟨Nat.find hex, hfind, ?_⟩
    unfold DepthIs
    exact ⟨hn, Nat.find_spec hex, fun j hj => Nat.find_min hex hj⟩

/-- In the order `__init__` builds, every non-baselevel node appears after
its receiver. -/
theorem build_order_receiver_before {r : List Nat} {l₁ l₂ : List Nat} {n : Nat}
    (hsplit : cf.build_ordered_list_iterative r (baselevelNodes r) = l₁ ++ n :: l₂)
    (hne : r.getD n n ≠ n) :
    r.getD n n ∈ l₁ := by
  rw [cf.build_ordered_list_iterative,
    show baselevelNodes r = frontierK r 0 from rfl] at hsplit
  rcases bfsAux_split r.length 0 l₁ n l₂ hsplit hne with h | h
  · exact h
  · exfalso
    have hmem : n ∈ baselevelNodes r := h
    exact hne (mem_baselevelNodes.mp hmem).2

/-! ### Conservation of weight under accumulation -/

/-- Splitting the pending sum at its head. -/
theorem pendSum_cons (r : List Nat) (acc : List Rat) (n : Nat) (rest : List Nat) :
    pendSum r acc (n :: rest) =
      (if r.getD n n = n then 0 else acc.getD n 0) + pendSum r acc rest := by
  unfold pendSum
  rw [List.filter_cons]
  by_cases h : r.getD n n = n
  · rw [if_pos h]
    have hc : (!(r.getD n n == n)) = false := by
      have hb : (r.getD n n == n) = true := beq_iff_eq.mpr h
      rw [hb]; rfl
    rw [hc]
    simp
  · rw [if_neg h]
    have hc : (!(r.getD n n == n)) = true := by
      have hb : (r.getD n n == n) = false := beq_eq_false_iff_ne.mpr h
      rw [hb]; rfl
    rw [hc]
    simp

/-- The conservation invariant of the accumulation loop: folding the
accumulation step over a duplicate-free pending list in which every
non-baselevel node precedes its receiver moves exactly the pending
non-baselevel mass into the baselevel sum. -/
theorem consSum_fold (r : List Nat) :
    ∀ (pending : List Nat) (acc : List Rat),
      acc.length = r.length →
      (∀ i < r.length, r.getD i i < r.length) →
      pending.Nodup →
      (∀ n ∈ pending, n < r.length) →
      (∀ p₁ n p₂, pending = p₁ ++ n :: p₂ → r.getD n n ≠ n → r.getD n n ∈ p₂) →
      baseSum r (pending.foldl (cf.accumStep r) acc) =
        baseSum r acc + pendSum r acc pending := by
  intro pending
  induction pending with
  | nil => intro acc _ _ _ _ _; simp [pendSum]
  | cons n rest ih =>
    intro acc hlen hb hnd hmem hafter
    rw [List.foldl_cons]
    have hnd' : rest.Nodup := hnd.of_cons
    have hmem' : ∀ m ∈ rest, m < r.length := fun m hm => hmem m (List.mem_cons_of_mem _ hm)
    have hafter' : ∀ p₁ m p₂, rest = p₁ ++ m :: p₂ → r.getD m m ≠ m → r.getD m m ∈ p₂ := by
      intro p₁ m p₂ hsplit hne
      exact hafter (n :: p₁) m p₂ (by rw [hsplit]; rfl) hne
    by_cases hself : r.getD n n = n
    · have hstep : cf.accumStep r acc n = acc := by
        simp only [cf.accumStep]
        rw [if_pos hself]
      rw [hstep, ih acc hlen hb hnd' hmem' hafter', pendSum_cons, if_pos hself]
      ring
    · have hnN : n < r.length := hmem n (List.mem_cons_self _ _)
      have hr₀N : r.getD n n < r.length := hb n hnN
      have hr₀rest : r.getD n n ∈ rest := hafter [] n rest rfl hself
      have hstep : cf.accumStep r acc n =
          acc.set (r.getD n n) (acc.getD (r.getD n n) 0 + acc.getD n 0) := by
        simp only [cf.accumStep]
        rw [if_neg hself]
      set r₀ := r.getD n n with hr₀def
      set acc' := acc.set r₀ (acc.getD r₀ 0 + acc.getD n 0) with haccdef
      have hlen' : acc'.length = r.length := by
        rw [haccdef, List.length_set]; exact hlen
      rw [hstep, ih acc' hlen' hb hnd' hmem' hafter']
      have hgetD' : ∀ m, m ≠ r₀ → acc'.getD m 0 = acc.getD m 0 := by
        intro m hm
        rw [haccdef]
        exact getD_set_ne acc _ (Ne.symm hm)
      have hgetDr₀ : acc'.getD r₀ 0 = acc.getD r₀ 0 + acc.getD n 0 := by
        rw [haccdef]
        exact getD_set_self acc r₀ _ (by rw [hlen]; exact hr₀N)
      rw [pendSum_cons, if_neg hself]
      by_cases hbase : r.getD r₀ r₀ = r₀
      · have hbsum : baseSum r acc' = baseSum r acc + acc.getD n 0 := by
          unfold baseSum
          rw [sum_map_update (baselevelNodes r) (nodup_baselevelNodes r)
            (mem_baselevelNodes.mpr ⟨hr₀N, hbase⟩)
            (fun i => acc.getD i 0) (fun i => acc'.getD i 0)
            (fun m _ hmne => hgetD' m hmne)]
          rw [hgetDr₀]; ring
        have hpsum : pendSum r acc' rest = pendSum r acc rest := by
          unfold pendSum
          apply congrArg List.sum
          apply List.map_congr_left
          intro m hm
          have hmne : m ≠ r₀ := by
            intro hc
            rw [hc] at hm
            have h2 := (List.mem_filter.mp hm).2
            have h3 : (r.getD r₀ r₀ == r₀) = true := beq_iff_eq.mpr hbase
            rw [h3] at h2
            simp at h2
          exact hgetD' m hmne
        rw [hbsum, hpsum]; ring
      · have hbsum : baseSum r acc' = baseSum r acc := by
          unfold baseSum
          apply congrArg List.sum
          apply List.map_congr_left
          intro m hm
          have hmb := mem_baselevelNodes.mp hm
          have hmne : m ≠ r₀ := by
            intro hc
            rw [hc] at hmb
            exact hbase hmb.2
          exact hgetD' m hmne
        have hpsum : pendSum r acc' rest = pendSum r acc rest + acc.getD n 0 := by
          unfold pendSum
          have hr₀filter : r₀ ∈ rest.filter (fun m => !(r.getD m m == m)) := by
            apply List.mem_filter.mpr
            refine ⟨hr₀rest, ?_⟩
            have h3 : (r.getD r₀ r₀ == r₀) = false := beq_eq_false_iff_ne.mpr hbase
            rw [h3]; rfl
          rw [sum_map_update _ (hnd'.filter _) hr₀filter
            (fun i => acc.getD i 0) (fun i => acc'.getD i 0)
            (fun m _ hmne => hgetD' m hmne)]
          rw [hgetDr₀]; ring
        rw [hbsum, hpsum]; ring

/-- When the pending list enumerates every node exactly once, the initial
bookkeeping quantity is the total input weight. -/
theorem baseSum_add_pendSum {r : List Nat} {w : List Rat} {pending : List Nat}
    (hlen : w.length = r.length)
    (hperm : pending.Perm (List.range r.length)) :
    baseSum r w + pendSum r w pending = w.sum := by
  unfold baseSum pendSum
  have h1 : ((pending.filter (fun n => !(r.getD n n == n))).map (fun n => w.getD n 0)).sum
      = (((List.range r.length).filter (fun n => !(r.getD n n == n))).map
          (fun n => w.getD n 0)).sum :=
    ((hperm.filter _).map _).sum_eq
  rw [h1]
  have h2 : (baselevelNodes r ++
      (List.range r.length).filter (fun n => !(r.getD n n == n))).Perm
      (List.range r.length) := by
    simpa [baselevelNodes] using
      List.filter_append_perm (fun i => r.getD i i == i) (List.range r.length)
  have h3 := (h2.map (fun n => w.getD n 0)).sum_eq
  rw [List.map_append, List.sum_append] at h3
  rw [h3, ← hlen, map_getD_range]

/-- Receivers derived from a grid stay within the node range. -/
theorem d8_receivers_inrange (a : List (List Int)) :
    ∀ i < (cf.d8_to_receivers a).length,
      (cf.d8_to_receivers a).getD i i < (cf.d8_to_receivers a).length := by
  intro i hi
  rw [d8_to_receivers_length, npSize] at hi ⊢
  exact d8_to_receivers_lt a i hi

/-- The conservation property at the level of the derived arrays: for a
receiver array with in-range entries whose every node drains to a
baselevel node, accumulating any weights vector of matching length over
the breadth-first order moves the total weight onto the baselevel
nodes. -/
theorem conserve_core (r : List Nat) (w : List Rat)
    (hlen : w.length = r.length)
    (hb : ∀ i < r.length, r.getD i i < r.length)
    (hdrain : DrainsAll r) :
    baseSum r (cf.accumulate_flow r
      (cf.build_ordered_list_iterative r (baselevelNodes r)) w) = w.sum := by
  unfold cf.accumulate_flow
  have hnodup : (cf.build_ordered_list_iterative r (baselevelNodes r)).reverse.Nodup :=
    (List.nodup_reverse).mpr (build_order_nodup hb)
  have hmem : ∀ m ∈ (cf.build_ordered_list_iterative r (baselevelNodes r)).reverse,
      m < r.length := by
    intro m hm
    rw [List.mem_reverse] at hm
    rcases (build_order_mem hb).mp hm with ⟨j, _, hd⟩
    exact hd.1
  have hafter : ∀ p₁ m p₂,
      (cf.build_ordered_list_iterative r (baselevelNodes r)).reverse = p₁ ++ m :: p₂ →
      r.getD m m ≠ m → r.getD m m ∈ p₂ := by
    intro p₁ m p₂ hsplit hne
    have horder2 : cf.build_ordered_list_iterative r (baselevelNodes r) =
        p₂.reverse ++ m :: p₁.reverse := by
      rw [← List.reverse_reverse (cf.build_ordered_list_iterative r (baselevelNodes r)),
        hsplit]
      simp
    have h4 := build_order_receiver_before horder2 hne
    rw [List.mem_reverse] at h4
    exact h4
  rw [consSum_fold r _ w hlen hb hnodup hmem hafter]
  exact baseSum_add_pendSum hlen
    ((List.reverse_perm _).trans (build_order_perm hb hdrain))

/-- Membership in the starting-node selection of `get_channel_segments`. -/
theorem mem_channelStartingNodes {s : D8Accumulator} {field : List Rat} {t : Rat} {i : Nat} :
    i ∈ s.channelStartingNodes field t ↔
      i < s.receivers.length ∧ t < field.getD i 0 ∧ s.receivers.getD i i = i := by
  simp [D8Accumulator.channelStartingNodes, List.mem_filter, List.mem_range, and_assoc]

/-- Every node the depth-first channel walk puts into a segment has a
field value strictly above the threshold, provided the walk starts on
such nodes. -/
theorem segmentWalk_members {r : List Nat} {field : List Rat} {t : Rat} :
    ∀ fuel n seg, t < field.getD n 0 → (∀ x ∈ seg, t < field.getD x 0) →
      ∀ s' ∈ cf.segmentWalk r field t fuel n seg, ∀ m ∈ s', t < field.getD m 0 := by
  intro fuel
  induction fuel with
  | zero =>
    intro n seg hn hseg s' hs' m hm
    rw [cf.segmentWalk] at hs'
    simp only [List.mem_singleton] at hs'
    subst hs'
    rw [List.mem_reverse] at hm
    rcases List.mem_cons.mp hm with h | h
    · subst h; exact hn
    · exact hseg m h
  | succ fuel ih =>
    intro n seg hn hseg s' hs' m hm
    rw [cf.segmentWalk] at hs'
    cases hq : (cf.donorsOfNode r n).filter (fun d => decide (t < field.getD d 0)) with
    | nil =>
      rw [hq] at hs'
      simp only [List.mem_singleton] at hs'
      subst hs'
      rw [List.mem_reverse] at hm
      rcases List.mem_cons.mp hm with h | h
      · subst h; exact hn
      · exact hseg m h
    | cons d tail =>
      cases tail with
      | nil =>
        rw [hq] at hs'
        have hd : t < field.getD d 0 := by
          have hdm : d ∈ (cf.donorsOfNode r n).filter
              (fun d => decide (t < field.getD d 0)) := by
            rw [hq]; exact List.mem_cons_self _ _
          have := (List.mem_filter.mp hdm).2
          simpa using this
        refine ih d (n :: seg) hd ?_ s' hs' m hm
        intro x hx
        rcases List.mem_cons.mp hx with h | h
        · subst h; exact hn
        · exact hseg x h
      | cons d2 tail2 =>
        rw [hq] at hs'
        simp only [List.mem_cons] at hs'
        rcases hs' with h | h
        · subst h
          rw [List.mem_reverse] at hm
          rcases List.mem_cons.mp hm with h | h
          · subst h; exact hn
          · exact hseg m h
        · rcases List.mem_flatMap.mp h with ⟨d', hd', hwalk⟩
          have hd'q : t < field.getD d' 0 := by
            have hdm : d' ∈ (cf.donorsOfNode r n).filter
                (fun d => decide (t < field.getD d 0)) := by
              rw [hq]; exact hd'
            have := (List.mem_filter.mp hdm).2
            simpa using this
          refine ih d' [] hd'q ?_ s' hwalk m hm
          intro x hx
          simp at hx

/-- Every node of every extracted channel segment has a field value
strictly above the threshold, provided the starting nodes do. -/
theorem get_channel_segments_members {starts r : List Nat} {field : List Rat} {t : Rat}
    (hstarts : ∀ s ∈ starts, t < field.getD s 0) :
    ∀ seg ∈ cf.get_channel_segments starts r field t, ∀ m ∈ seg, t < field.getD m 0 := by
  intro seg hseg m hm
  rcases List.mem_flatMap.mp hseg with ⟨s, hs, hwalk⟩
  refine segmentWalk_members r.length s [] (hstarts s hs) ?_ seg hwalk m hm
  intro x hx
  simp at hx

/-! ### The claims -/

/-- Claim C1 (amended): for every constructed accumulator and every
weights vector whose flattened length matches the receiver array —
including the default all-ones weights — and provided every node of the
grid drains to a baselevel node (a hypothesis the original claim omits
and which fails on grids whose direction codes contain a directed cycle),
the accumulated values at the baselevel nodes sum to the total input
weight: no weight is lost or double-counted. -/
theorem accumulate_conserves_weights (a : List (List Int)) (ds : Option GeoTransform)
    (w : List Rat)
    (hlen : w.length = (D8Accumulator.build a ds).receivers.length)
    (hdrain : DrainsAll (D8Accumulator.build a ds).receivers) :
    baseSum (D8Accumulator.build a ds).receivers
      (cf.accumulate_flow (D8Accumulator.build a ds).receivers
        (D8Accumulator.build a ds).order w) = w.sum :=
  conserve_core (cf.d8_to_receivers a) w hlen (d8_receivers_inrange a) hdrain

/-- Witness for C1: a 2x2 all-sink grid with weights 1, 2, 3, 4. -/
theorem accumulate_conserves_weights_witness :
    baseSum (D8Accumulator.build [[0, 0], [0, 0]] none).receivers
      (cf.accumulate_flow (D8Accumulator.build [[0, 0], [0, 0]] none).receivers
        (D8Accumulator.build [[0, 0], [0, 0]] none).order [1, 2, 3, 4]) =
      ([1, 2, 3, 4] : List Rat).sum :=
  accumulate_conserves_weights [[0, 0], [0, 0]] none [1, 2, 3, 4] (by decide) (by decide)

/-- Counterexample to C1 as stated: on the 3x4 grid whose two interior
cells point at each other, the default accumulation (weight 1 per node)
returns the weights unchanged, and the baselevel nodes receive a total of
10 while the input weights sum to 12 — the two cycle nodes' weight never
reaches an outlet. -/
theorem accumulate_conservation_fails_on_cycle :
    ((D8Accumulator.from_array cycArr).accumulate none =
      Except.ok (List.replicate 12 (1 : Rat))) ∧
    baseSum (D8Accumulator.from_array cycArr).receivers (List.replicate 12 (1 : Rat)) = 10 ∧
    (List.replicate 12 (1 : Rat)).sum = 12 ∧ (10 : Rat) ≠ 12 := by
  refine ⟨by decide, ?_, ?_, by norm_num⟩
  · have h1 : (baselevelNodes (cf.d8_to_receivers cycArr)).map
        (fun i => (List.replicate 12 (1 : Rat)).getD i 0) =
        [1, 1, 1, 1, 1, 1, 1, 1, 1, 1] := by decide
    show baseSum (cf.d8_to_receivers cycArr) (List.replicate 12 (1 : Rat)) = 10
    unfold baseSum
    rw [h1]
    norm_num [List.sum_cons, List.sum_nil]
  · have h : List.replicate 12 (1 : Rat) = [1, 1, 1, 1, 1, 1, 1, 1, 1, 1, 1, 1] := rfl
    rw [h]
    norm_num [List.sum_cons, List.sum_nil]

/-- Claim C2: in every constructed accumulator, a node id is in
`baselevel_nodes` exactly when it is its own receiver, and the
`baselevel_nodes` array is strictly ascending. -/
theorem baselevel_nodes_iff_self_receiver (a : List (List Int)) (ds : Option GeoTransform)
    (i : Nat) (hi : i < (D8Accumulator.build a ds).receivers.length) :
    (i ∈ (D8Accumulator.build a ds).baselevel_nodes ↔
      (D8Accumulator.build a ds).receivers.getD i i = i) ∧
    (D8Accumulator.build a ds).baselevel_nodes.Sorted (· < ·) := by
  have hbl : (D8Accumulator.build a ds).baselevel_nodes =
      baselevelNodes ((D8Accumulator.build a ds).receivers) := rfl
  rw [hbl]
  exact ⟨⟨fun h => (mem_baselevelNodes.mp h).2, fun h => mem_baselevelNodes.mpr ⟨hi, h⟩⟩,
    sorted_baselevelNodes _⟩

/-- Witness for C2 on a 2x2 all-sink grid at node 0. -/
theorem baselevel_nodes_iff_self_receiver_witness :
    (0 ∈ (D8Accumulator.build [[0, 0], [0, 0]] none).baselevel_nodes ↔
      (D8Accumulator.build [[0, 0], [0, 0]] none).receivers.getD 0 0 = 0) ∧
    (D8Accumulator.build [[0, 0], [0, 0]] none).baselevel_nodes.Sorted (· < ·) :=
  baselevel_nodes_iff_self_receiver [[0, 0], [0, 0]] none 0 (by decide)

/-- Claim C3 (amended): for every constructed accumulator whose every
node drains to a baselevel node (a hypothesis the original claim omits
and which fails on grids with a directed flow cycle), the order array is
a permutation of the node ids `0..N-1`. -/
theorem order_permutation_of_drains (a : List (List Int)) (ds : Option GeoTransform)
    (hdrain : DrainsAll (D8Accumulator.build a ds).receivers) :
    (D8Accumulator.build a ds).order.Perm (List.range (npSize a)) := by
  have h := build_order_perm (d8_receivers_inrange a) hdrain
  rw [d8_to_receivers_length] at h
  exact h

/-- Witness for C3 on a 2x2 all-sink grid. -/
theorem order_permutation_of_drains_witness :
    (D8Accumulator.build [[0, 0], [0, 0]] none).order.Perm
      (List.range (npSize [[0, 0], [0, 0]])) :=
  order_permutation_of_drains [[0, 0], [0, 0]] none (by decide)

/-- Counterexample to C3 as stated: on the 3x4 two-cycle grid the order
misses the two cycle nodes and is not a permutation of `0..11`. -/
theorem order_not_permutation_on_cycle :
    ¬ ((D8Accumulator.from_array cycArr).order.Perm (List.range (npSize cycArr))) := by
  decide

/-- Claim C4 (amended): `accumulate` with explicit weights fails with the
shape-mismatch `ValueError` exactly when the weights' numpy shape differs
from the D8 array's 2D shape.  A 2D array of the grid's shape is
accepted, but — contrary to the original claim — an already-flattened 1D
array is rejected even when its length matches the receiver count,
because the check compares shapes, not flattened lengths. -/
theorem accumulate_shape_check_iff (a : List (List Int)) (ds : Option GeoTransform)
    (w : NDArray) :
    ((D8Accumulator.build a ds).accumulate (some w) =
      Except.error (PyError.valueError "Weights must be have same shape as D8 array")) ↔
    w.shape ≠ [a.length, colsOf a] := by
  have harr : (D8Accumulator.build a ds).arr = a := rfl
  simp only [D8Accumulator.accumulate, harr]
  by_cases h : w.shape = [a.length, colsOf a]
  · rw [if_pos h]
    simp [h]
  · rw [if_neg h]
    simp [h]

/-- Counterexample to C4 as stated: a 1D weights array of length 4 on a
2x2 grid has matching flattened length yet is rejected with the
shape-mismatch error. -/
theorem accumulate_rejects_matching_flat_weights :
    ((NDArray.mk [4] [1, 1, 1, 1]).data.length =
      (D8Accumulator.from_array [[0, 0], [0, 0]]).receivers.length) ∧
    ((D8Accumulator.from_array [[0, 0], [0, 0]]).accumulate
      (some (NDArray.mk [4] [1, 1, 1, 1])) =
      Except.error (PyError.valueError "Weights must be have same shape as D8 array")) :=
  ⟨by decide, by decide⟩

/-- Claim C5 is a code bug: `node_to_coord` checks `node > ncols*nrows`
instead of `>=`, so the out-of-range node id `rows*cols` (here 4 on a 2x2
grid) is accepted and converted to a coordinate outside the grid instead
of raising. -/
theorem node_to_coord_accepts_node_eq_size :
    (npSize [[0, 0], [0, 0]] = 4) ∧
    ((D8Accumulator.init [[0, 0], [0, 0]] gt0).node_to_coord 4).isOk = true :=
  ⟨rfl, by decide⟩

/-- Claim C6 is a code bug: `coord_to_node` only bounds-checks the final
linear index, so the coordinate `(5/2, -1/2)` — outside the 2x2 grid's
extent, whose x range is `[0, 2]` — is silently mapped to node 2 instead
of raising. -/
theorem coord_to_node_accepts_outside_extent :
    ((0 : Rat) + 1 * 2 < 5 / 2) ∧
    ((D8Accumulator.init [[0, 0], [0, 0]] gt0).coord_to_node (5 / 2) (-(1 / 2)) =
      Except.ok 2) := by
  constructor
  · norm_num
  · norm_num [D8Accumulator.coord_to_node, D8Accumulator.init, D8Accumulator.build,
      gt0, truncInt, colsOf]

/-- Claim C7 (amended): the threshold comparison of
`get_channel_segments` is strict (`field > threshold`), so a baselevel
node whose field value merely equals the threshold is excluded, not
included: a node is selected as a starting node exactly when its field
value strictly exceeds the threshold and it is baselevel, and every node
of every extracted segment has a field value strictly above the
threshold. -/
theorem channel_threshold_strict (a : List (List Int)) (ds : Option GeoTransform)
    (field : List Rat) (t : Rat) (i : Nat)
    (hi : i < (D8Accumulator.build a ds).receivers.length) :
    (i ∈ (D8Accumulator.build a ds).channelStartingNodes field t ↔
      (t < field.getD i 0 ∧ (D8Accumulator.build a ds).receivers.getD i i = i)) ∧
    (∀ seg ∈ (D8Accumulator.build a ds).get_channel_segments field t,
      ∀ m ∈ seg, t < field.getD m 0) := by
  constructor
  · rw [mem_channelStartingNodes]
    constructor
    · rintro ⟨_, h2, h3⟩; exact ⟨h2, h3⟩
    · rintro ⟨h2, h3⟩; exact ⟨hi, h2, h3⟩
  · intro seg hseg m hm
    have hstarts : ∀ s ∈ (D8Accumulator.build a ds).channelStartingNodes field t,
        t < field.getD s 0 := fun s hs => (mem_channelStartingNodes.mp hs).2.1
    exact get_channel_segments_members hstarts seg hseg m hm

/-- Witness for C7 on a 2x2 all-sink grid, field `[6,0,0,0]`,
threshold 5, node 0. -/
theorem channel_threshold_strict_witness :
    (0 ∈ (D8Accumulator.build [[0, 0], [0, 0]] none).channelStartingNodes [6, 0, 0, 0] 5 ↔
      ((5 : Rat) < ([6, 0, 0, 0] : List Rat).getD 0 0 ∧
        (D8Accumulator.build [[0, 0], [0, 0]] none).receivers.getD 0 0 = 0)) ∧
    (∀ seg ∈ (D8Accumulator.build [[0, 0], [0, 0]] none).get_channel_segments [6, 0, 0, 0] 5,
      ∀ m ∈ seg, (5 : Rat) < ([6, 0, 0, 0] : List Rat).getD m 0) :=
  channel_threshold_strict [[0, 0], [0, 0]] none [6, 0, 0, 0] 5 0 (by decide)

/-- Counterexample to C7 as stated: node 0 of a 2x2 all-sink grid is
baselevel and its field value equals the threshold 5, yet no channel
segment is produced at all — the node is excluded, not included. -/
theorem channel_equal_threshold_excluded :
    ((D8Accumulator.from_array [[0, 0], [0, 0]]).receivers.getD 0 0 = 0) ∧
    (([5, 0, 0, 0] : List Rat).getD 0 0 = 5) ∧
    ((D8Accumulator.from_array [[0, 0], [0, 0]]).get_channel_segments [5, 0, 0, 0] 5 = []) :=
  ⟨by decide, rfl, by decide⟩

/-- Claim C8: `get_profile` fails with the invalid-index `ValueError`
exactly when the start node lies outside `[0, rows*cols)`; an in-range
start node never raises this error (on an array-constructed accumulator
it instead hits the `AttributeError` of claim C10, a different
failure). -/
theorem get_profile_valueerror_iff (s : D8Accumulator) (start_node : Int) :
    (s.get_profile start_node =
      Except.error (PyError.valueError "start_node must be a valid node index")) ↔
    (start_node < 0 ∨ (npSize s.arr : Int) ≤ start_node) := by
  unfold D8Accumulator.get_profile
  by_cases h : start_node < 0 ∨ (npSize s.arr : Int) ≤ start_node
  · rw [if_pos h]
    simp [h]
  · rw [if_neg h]
    cases hds : s.ds with
    | none => simp [h]
    | some g => simp [h]

/-- Claim C9: replacing the direction-code array through the `arr` setter
recomputes every derived array from the new array before the setter
returns — the new state carries no data computed from the old array. -/
theorem arr_setter_recomputes_derived (s : D8Accumulator) (a : List (List Int)) :
    (s.setArr a).arr = a ∧
    (s.setArr a).ds = none ∧
    (s.setArr a).receivers = cf.d8_to_receivers a ∧
    (s.setArr a).baselevel_nodes = baselevelNodes (cf.d8_to_receivers a) ∧
    (s.setArr a).order = cf.build_ordered_list_iterative (cf.d8_to_receivers a)
      (baselevelNodes (cf.d8_to_receivers a)) :=
  ⟨rfl, rfl, rfl, rfl, rfl⟩

/-- Claim C10: on an accumulator constructed by `from_array` (no GDAL
dataset), every `get_profile` call with an in-range start node passes the
bounds check and then fails by dereferencing the absent dataset
(`AttributeError`), so no profile is ever returned. -/
theorem get_profile_fails_without_dataset (a : List (List Int)) (t : Int)
    (h0 : 0 ≤ t) (hN : t < (npSize a : Int)) :
    (D8Accumulator.from_array a).get_profile t = Except.error PyError.attributeError := by
  unfold D8Accumulator.get_profile
  have harr : (D8Accumulator.from_array a).arr = a := rfl
  rw [harr]
  rw [if_neg (by omega)]
  rfl

/-- Witness for C10: a 1x1 grid and start node 0. -/
theorem get_profile_fails_without_dataset_witness :
    (D8Accumulator.from_array [[0]]).get_profile 0 = Except.error PyError.attributeError :=
  get_profile_fails_without_dataset [[0]] 0 (by decide) (by decide)
